import Mathlib

/-!
Verification of the declarative-reconciliation core of a ServiceNow client
library.  The development shallowly embeds the row delta-merge planner
(`client-delta.js`, class `CDelta`, first/current iteration), the transport
retry loop (`ServiceNowClient.do`), the schema cache (`CSchema.get`), the
glide-date-time coercion (`CSchema.convertJS` / `CSchema.convertSN` plus
`snowDate`), the record-quota gate of `getRecords`, and the column/table
reconciliation planners (`CColumn.sync`, `CTable.sync`, `CTable.commitAll`).
Rows are modelled as ordered association lists from column name to wire
string, matching the JS objects whose values are all strings after
`convertSN`.
-/

/-- A wire-form row: ordered association list `column name → string value`.
A key that is absent models a JS `undefined` property. -/
abbrev Row := List (String × String)

namespace Row

/-- JS `row[k]`: the value bound to `k`, if the property is present. -/
def get? (r : Row) (k : String) : Option String :=
  r.lookup k

/-- JS `row[k]` coerced as in the source's comparisons: `undefined` values are
the empty string (`client-delta.js` lines 176-181). -/
def getD (r : Row) (k : String) : String :=
  (r.get? k).getD ""

/-- JS `row[k] = v`: overwrite the property in place if present (field order
preserved), otherwise append it. -/
def set (r : Row) (k v : String) : Row :=
  match r with
  | [] => [(k, v)]
  | (k', v') :: rest => if k' = k then (k, v) :: rest else (k', v') :: set rest k v

/-- JS `k in row`. -/
def hasKey (r : Row) (k : String) : Bool :=
  (r.get? k).isSome



end Row

/-! ## Row delta-merge (`src/client-delta.js`, class `CDelta`, lines 19-301)

`CDelta.merge` first converts and indexes both incoming and existing rows
(lines 92-122), then plans creates/updates (lines 140-199) and deletes
(lines 200-232), and finally executes the plan bracketed by data-policy
toggles (lines 254-293).  The conversion `schema.convertSN` and the resolved
primary-key function are passed as function parameters `conv` and `pk`; a
primary key of `""` models a JS-falsy key (`if (cid)`). -/

namespace CDelta

/-- Accumulator of the validate-and-index loop (`client-delta.js` lines
79-122): `processed` is `processedRows[type]`, `index` is `index[type]`
(insertion-ordered), `dups` is `duplicates[type]` and holds the *raw*
(unconverted) rows exactly as `duplicates[type].push(row)` does. -/
structure IndexSt where
  processed : List Row := []
  index : List (String × Row) := []
  dups : List Row := []

/-- One iteration of the indexing loop body (lines 95-111). -/
def indexStep (conv : Row → Row) (pk : Row → String) (st : IndexSt) (row : Row) :
    IndexSt :=
  let snRow := conv row
  let cid := pk snRow
  if cid ≠ "" then
    if (st.index.lookup cid).isSome then
      { st with dups := st.dups ++ [row] }
    else
      { st with index := st.index ++ [(cid, snRow)],
                processed := st.processed ++ [snRow] }
  else
    { st with processed := st.processed ++ [snRow] }

/-- The indexing loop over one row list (lines 92-122). -/
def indexRows (conv : Row → Row) (pk : Row → String) (rows : List Row) : IndexSt :=
  rows.foldl (indexStep conv pk) {}

/-- The three pending lists and the matched counter (lines 128-134). -/
structure MergePlan where
  create : List Row := []
  update : List Row := []
  delete : List Row := []
  rowsMatched : Nat := 0
deriving Repr, DecidableEq

/-- The field-by-field comparison loop (lines 163-190): for each key of the
incoming row that is in the schema, compare (undefined ⇒ "") and collect the
changed values. -/
def updatePayload (schema : List String) (incoming existing : Row) : Row :=
  incoming.foldl
    (fun payload kv =>
      if kv.1 ∈ schema then
        let iv := incoming.getD kv.1
        let ev := existing.getD kv.1
        if iv ≠ ev then payload.set kv.1 iv else payload
      else payload)
    []

/-- Loop body of the pending-creates/updates phase (lines 140-199) for one
processed incoming row.  `hasFlag` is `deletedFlag in schema` (line 138),
`now` stands for `new Date()` at line 154, `exIndex` is `index.existing`. -/
def planIncoming (pk : Row → String) (schema : List String) (deletedFlag : String)
    (hasFlag : Bool) (now : String) (exIndex : List (String × Row))
    (acc : MergePlan) (row0 : Row) : Except String MergePlan :=
  let row := if hasFlag then row0.set deletedFlag "1" else row0
  let cid := pk row
  match exIndex.lookup cid with
  | none =>
    let row' :=
      if "first_discovered" ∈ schema ∧ (row.get? "first_discovered").isNone then
        row.set "first_discovered" now
      else row
    .ok { acc with create := acc.create ++ [row'] }
  | some ex =>
    if (ex.get? "sys_id").getD "" = "" then
      .error "Existing row missing sys_id"
    else
      let payload := updatePayload schema row ex
      if payload = [] then
        .ok { acc with rowsMatched := acc.rowsMatched + 1 }
      else
        let payload' := (payload.set "sys_id" (ex.getD "sys_id")).set
          "sys_class_name" (ex.getD "sys_class_name")
        .ok { acc with update := acc.update ++ [payload'] }

/-- A delete payload (lines 224-230): `{sys_id}` plus, when the deleted flag
is usable, `deletedFlag = "0"`. -/
def deletePayload (hasFlag : Bool) (flag sid : String) : Row :=
  if hasFlag then [("sys_id", sid), (flag, "0")] else [("sys_id", sid)]

/-- Loop body of the delete scan (lines 205-218): skip rows without a key or
whose key is in the incoming index, skip already-flagged rows unless
`allowDeletes`, otherwise collect the row's `sys_id`. -/
def deleteScan (pk : Row → String) (flag : String) (hasFlag allowDeletes : Bool)
    (incIndex : List (String × Row)) (ex : Row) : Option String :=
  if pk ex = "" || (incIndex.lookup (pk ex)).isSome then none
  else if !allowDeletes && hasFlag && (ex.get? flag == some "0") then none
  else some (ex.getD "sys_id")

/-- The pending-deletes phase (lines 200-232): guarded by
`allowDeletes || hasDeletedFlag`; scans the processed existing rows, then
always appends the duplicate existing rows, and turns each collected
`sys_id` into a delete payload. -/
def planDeletes (pk : Row → String) (flag : String) (hasFlag allowDeletes : Bool)
    (incIndex : List (String × Row)) (exSt : IndexSt) : List Row :=
  if allowDeletes || hasFlag then
    (exSt.processed.filterMap (deleteScan pk flag hasFlag allowDeletes incIndex)
      ++ exSt.dups.map (fun ex => ex.getD "sys_id")).map
      (deletePayload hasFlag flag)
  else []

/-- Inputs of one delta-merge run, after the argument defaulting of lines
19-63: `conv` is `client.schema.convertSN(tableName, ·)`, `pk` the resolved
primary-key function, `deletedFlag` the defaulted flag column name, `schema`
the set of column names of the loaded table schema. -/
structure MergeArgs where
  rows : List Row
  existing : List Row
  conv : Row → Row
  pk : Row → String
  deletedFlag : String
  allowDeletes : Bool
  schema : List String
  now : String

/-- `deletedFlag in schema` (line 138). -/
def MergeArgs.hasFlag (a : MergeArgs) : Bool :=
  a.deletedFlag ∈ a.schema

/-- The whole planning phase of `CDelta.merge` (lines 79-232), producing the
three pending lists and the matched counter, or the thrown string. -/
def merge (a : MergeArgs) : Except String MergePlan := do
  let inc := indexRows a.conv a.pk a.rows
  let ex := indexRows a.conv a.pk a.existing
  let p ← inc.processed.foldlM
    (planIncoming a.pk a.schema a.deletedFlag a.hasFlag a.now ex.index) {}
  .ok { p with
        delete := planDeletes a.pk a.deletedFlag a.hasFlag a.allowDeletes inc.index ex }

/-- The counters returned by `merge` (lines 241-248 and 294-301). -/
structure MergeResult where
  rowsMatched : Nat
  rowsCreated : Nat
  rowsUpdated : Nat
  rowsDeleted : Nat
deriving Repr, DecidableEq

/-- Both return sites of `merge` produce the plan's counters: the early
return (lines 241-249) fires exactly when all three lists are empty, in
which case the two forms agree. -/
def mergeResult (p : MergePlan) : MergeResult :=
  ⟨p.rowsMatched, p.create.length, p.update.length, p.delete.length⟩

/-- Observable side effects of the execution phase. -/
inductive Effect
  | toggle (active : Bool)
  | createRow (r : Row)
  | updateRow (r : Row)
  | deleteRow (r : Row)
deriving Repr, DecidableEq

/-- The write requests of the execution phase in program order (lines
258-287): all creates, then all updates, then the delete phase, whose
per-row request is DELETE when `allowDeletes`, an update setting the flag
when the deleted flag exists, and nothing otherwise. -/
def planWrites (p : MergePlan) (allowDeletes hasFlag : Bool) : List Effect :=
  p.create.map Effect.createRow ++ p.update.map Effect.updateRow ++
  p.delete.filterMap (fun r =>
    if allowDeletes then some (Effect.deleteRow r)
    else if hasFlag then some (Effect.updateRow r)
    else none)

/-- `msg.length === 0` (lines 233-241): true iff all three pending lists are
empty. -/
def planEmpty (p : MergePlan) : Bool :=
  p.create.isEmpty && p.update.isEmpty && p.delete.isEmpty

/-- The effect trace of the execution phase (lines 241-293).  On an empty
plan the function returns before touching the policy (lines 241-249).
Otherwise the data policy is toggled off, the writes run in order until
`failIdx` (`none` = all writes succeed, `some i` = the `i`-th write throws),
and the `finally` block toggles the policy back on, on every exit path. -/
def mergeTrace (p : MergePlan) (allowDeletes hasFlag : Bool)
    (failIdx : Option Nat) : List Effect :=
  if planEmpty p then []
  else
    let ws := planWrites p allowDeletes hasFlag
    let attempted := match failIdx with
      | none => ws
      | some i => ws.take (i + 1)
    Effect.toggle false :: (attempted ++ [Effect.toggle true])

end CDelta

/-! ## Counting lemmas for the delta-merge planner -/

namespace CDelta

/-- Each indexing step files the row under exactly one of `processed` /
`dups`. -/
theorem indexStep_count (conv : Row → Row) (pk : Row → String) (st : IndexSt)
    (row : Row) :
    (indexStep conv pk st row).processed.length + (indexStep conv pk st row).dups.length
      = st.processed.length + st.dups.length + 1 := by
  simp only [indexStep]
  split
  · split
    · simp
      omega
    · simp
      omega
  · simp
    omega

/-- The indexing loop files every row under exactly one of `processed` /
`dups`. -/
theorem indexRows_count (conv : Row → Row) (pk : Row → String) (rows : List Row) :
    (indexRows conv pk rows).processed.length + (indexRows conv pk rows).dups.length
      = rows.length := by
  suffices h : ∀ (st : IndexSt),
      (rows.foldl (indexStep conv pk) st).processed.length
        + (rows.foldl (indexStep conv pk) st).dups.length
      = st.processed.length + st.dups.length + rows.length by
    simpa [indexRows] using h {}
  induction rows with
  | nil => intro st; simp
  | cons r rs ih =>
    intro st
    have h1 := indexStep_count conv pk st r
    have h2 := ih (indexStep conv pk st r)
    simp only [List.foldl_cons, List.length_cons]
    omega

/-- `|create| + |update| + |matched|` of a plan. -/
def planCount (p : MergePlan) : Nat :=
  p.create.length + p.update.length + p.rowsMatched

/-- Each successful creates/updates step classifies its row into exactly one
of create / update / matched. -/
theorem planIncoming_count (pk : Row → String) (schema : List String)
    (deletedFlag : String) (hasFlag : Bool) (now : String)
    (exIndex : List (String × Row)) (acc : MergePlan) (row : Row)
    (acc' : MergePlan)
    (h : planIncoming pk schema deletedFlag hasFlag now exIndex acc row = .ok acc') :
    planCount acc' = planCount acc + 1 := by
  simp only [planIncoming] at h
  split at h
  · simp only [Except.ok.injEq] at h
    subst h
    simp only [planCount, List.length_append, List.length_cons, List.length_nil]
    omega
  · split at h
    · exact Except.noConfusion h
    · split at h
      all_goals split at h
      all_goals simp only [Except.ok.injEq] at h
      all_goals subst h
      all_goals simp only [planCount, List.length_append, List.length_cons, List.length_nil]
      all_goals omega

/-- The creates/updates loop classifies every processed incoming row into
exactly one of create / update / matched. -/
theorem planIncoming_fold_count (pk : Row → String) (schema : List String)
    (deletedFlag : String) (hasFlag : Bool) (now : String)
    (exIndex : List (String × Row)) (rows : List Row) (acc p : MergePlan)
    (h : rows.foldlM (planIncoming pk schema deletedFlag hasFlag now exIndex) acc
          = .ok p) :
    planCount p = planCount acc + rows.length := by
  induction rows generalizing acc with
  | nil =>
    simp only [List.foldlM_nil] at h
    cases h
    simp
  | cons r rs ih =>
    rw [List.foldlM_cons] at h
    cases hstep : planIncoming pk schema deletedFlag hasFlag now exIndex acc r with
    | error e =>
      rw [hstep] at h
      exact Except.noConfusion h
    | ok acc1 =>
      rw [hstep] at h
      replace h : rs.foldlM (planIncoming pk schema deletedFlag hasFlag now exIndex) acc1
          = .ok p := h
      have h1 := planIncoming_count pk schema deletedFlag hasFlag now exIndex acc r acc1 hstep
      have h2 := ih acc1 h
      simp only [List.length_cons]
      omega

/-- The delete phase emits at most one payload per existing row. -/
theorem planDeletes_length_le (pk : Row → String) (flag : String)
    (hasFlag allowDeletes : Bool) (incIndex : List (String × Row)) (exSt : IndexSt) :
    (planDeletes pk flag hasFlag allowDeletes incIndex exSt).length
      ≤ exSt.processed.length + exSt.dups.length := by
  simp only [planDeletes]
  split
  · have h1 := List.length_filterMap_le
      (deleteScan pk flag hasFlag allowDeletes incIndex) exSt.processed
    simp only [List.length_map, List.length_append]
    omega
  · simp

end CDelta

/-! ## Claim C1 -/

namespace CDelta

/-- **C1.** For every delta-merge run with incoming rows `I` and existing
rows `E` whose planning succeeds, the returned counters satisfy
`rowsCreated + rowsUpdated + rowsMatched = |I| −` (number of duplicate-keyed
incoming rows), `rowsDeleted ≤ |E|`, and when `allowDeletes` is false and
the deleted-flag column is absent from the table schema, `rowsDeleted = 0`. -/
theorem c1_merge_counters (a : MergeArgs) (p : MergePlan)
    (h : merge a = .ok p) :
    (mergeResult p).rowsCreated + (mergeResult p).rowsUpdated
        + (mergeResult p).rowsMatched
      = a.rows.length - (indexRows a.conv a.pk a.rows).dups.length
    ∧ (mergeResult p).rowsDeleted ≤ a.existing.length
    ∧ (a.allowDeletes = false → a.deletedFlag ∉ a.schema →
        (mergeResult p).rowsDeleted = 0) := by
  simp only [merge] at h
  cases hq : (indexRows a.conv a.pk a.rows).processed.foldlM
      (planIncoming a.pk a.schema a.deletedFlag a.hasFlag a.now
        (indexRows a.conv a.pk a.existing).index) {} with
  | error e =>
    rw [hq] at h
    exact Except.noConfusion h
  | ok q =>
    rw [hq] at h
    replace h : Except.ok { q with delete := planDeletes a.pk a.deletedFlag a.hasFlag a.allowDeletes (indexRows a.conv a.pk a.rows).index (indexRows a.conv a.pk a.existing) } = Except.ok p := h
    simp only [Except.ok.injEq] at h
    subst h
    have hcount := planIncoming_fold_count a.pk a.schema a.deletedFlag a.hasFlag a.now
      (indexRows a.conv a.pk a.existing).index
      (indexRows a.conv a.pk a.rows).processed {} q hq
    have hinc := indexRows_count a.conv a.pk a.rows
    have hex := indexRows_count a.conv a.pk a.existing
    have hdel := planDeletes_length_le a.pk a.deletedFlag a.hasFlag a.allowDeletes
      (indexRows a.conv a.pk a.rows).index (indexRows a.conv a.pk a.existing)
    refine ⟨?_, ?_, ?_⟩
    · simp only [mergeResult, planCount] at hcount ⊢
      simp only [List.length_nil] at hcount
      omega
    · simp only [mergeResult]
      omega
    · intro hAD hFlag
      have hf : a.hasFlag = false := by
        simp only [MergeArgs.hasFlag, decide_eq_false_iff_not]
        exact hFlag
      simp only [mergeResult, planDeletes, hAD, hf, Bool.or_self, if_neg]
      simp

end CDelta

namespace CDelta

/-- Concrete delta-merge input: three incoming rows of which one is
duplicate-keyed, two existing rows; the schema lacks the deleted-flag
column and `allowDeletes` is false. -/
def c1Args : MergeArgs where
  rows := [[("u_k", "a"), ("u_v", "1")], [("u_k", "b"), ("u_v", "2")],
    [("u_k", "a"), ("u_v", "3")]]
  existing := [[("u_k", "b"), ("u_v", "9"), ("sys_id", "e1")],
    [("u_k", "c"), ("sys_id", "e2")]]
  conv := id
  pk := fun r => r.getD "u_k"
  deletedFlag := "u_in_datamart"
  allowDeletes := false
  schema := ["u_k", "u_v"]
  now := "2024-01-01 00:00:00"

/-- The plan computed on `c1Args`: one create, one update, no deletes. -/
def c1Plan : MergePlan :=
  ⟨[[("u_k", "a"), ("u_v", "1")]],
    [[("u_v", "2"), ("sys_id", "e1"), ("sys_class_name", "")]], [], 0⟩

/-- Witness for `c1_merge_counters` at the concrete run `c1Args`. -/
theorem c1_merge_counters_witness :
    merge c1Args = .ok c1Plan
    ∧ ((mergeResult c1Plan).rowsCreated + (mergeResult c1Plan).rowsUpdated
          + (mergeResult c1Plan).rowsMatched
        = c1Args.rows.length
            - (indexRows c1Args.conv c1Args.pk c1Args.rows).dups.length
      ∧ (mergeResult c1Plan).rowsDeleted ≤ c1Args.existing.length
      ∧ (c1Args.allowDeletes = false → c1Args.deletedFlag ∉ c1Args.schema →
          (mergeResult c1Plan).rowsDeleted = 0)) :=
  ⟨by rfl, c1_merge_counters c1Args c1Plan (by rfl)⟩

end CDelta

/-! ## Claims C5 and C10: the execution phase -/

namespace CDelta

/-- **C5.** For every delta-merge run that reaches the write phase (a
non-empty plan), `policy.toggle(table, false)` is the first effect, before
any write; the attempted writes are an initial segment of the plan's writes
in the order creates, then updates, then deletes; and
`policy.toggle(table, true)` is the last effect on every exit path of the
write phase — both when all writes succeed (`failIdx = none`) and when any
create, update or delete throws (`failIdx = some i`). -/
theorem c5_merge_policy_bracketing (a : MergeArgs) (p : MergePlan)
    (h : merge a = .ok p) (hne : planEmpty p = false) (failIdx : Option Nat) :
    ∃ ws rest, planWrites p a.allowDeletes a.hasFlag = ws ++ rest
      ∧ mergeTrace p a.allowDeletes a.hasFlag failIdx
          = Effect.toggle false :: (ws ++ [Effect.toggle true]) := by
  simp only [mergeTrace, hne, Bool.false_eq_true, if_false]
  cases failIdx with
  | none =>
    exact ⟨planWrites p a.allowDeletes a.hasFlag, [], by simp, rfl⟩
  | some i =>
    refine ⟨(planWrites p a.allowDeletes a.hasFlag).take (i + 1),
      (planWrites p a.allowDeletes a.hasFlag).drop (i + 1), ?_, rfl⟩
    exact (List.take_append_drop (i + 1) (planWrites p a.allowDeletes a.hasFlag)).symm

/-- Witness for `c5_merge_policy_bracketing`: the concrete run `c1Args`
with the first write throwing. -/
theorem c5_merge_policy_bracketing_witness :
    merge c1Args = .ok c1Plan ∧ planEmpty c1Plan = false
    ∧ ∃ ws rest, planWrites c1Plan c1Args.allowDeletes c1Args.hasFlag = ws ++ rest
        ∧ mergeTrace c1Plan c1Args.allowDeletes c1Args.hasFlag (some 0)
            = Effect.toggle false :: (ws ++ [Effect.toggle true]) :=
  ⟨by rfl, by rfl, c5_merge_policy_bracketing c1Args c1Plan (by rfl) (by rfl) (some 0)⟩

/-- **C10.** For every delta-merge run whose computed plan has no creates,
updates or deletes, `merge` returns the accumulated `rowsMatched` with the
other counters zero, and the execution phase emits no effect at all — no
`policy.toggle` call and no write request — regardless of any fail point. -/
theorem c10_merge_empty_plan_frame (a : MergeArgs) (p : MergePlan)
    (h : merge a = .ok p)
    (hc : p.create = []) (hu : p.update = []) (hd : p.delete = []) :
    mergeResult p = ⟨p.rowsMatched, 0, 0, 0⟩
    ∧ ∀ failIdx, mergeTrace p a.allowDeletes a.hasFlag failIdx = [] := by
  constructor
  · simp [mergeResult, hc, hu, hd]
  · intro failIdx
    simp [mergeTrace, planEmpty, hc, hu, hd]

/-- Concrete delta-merge input whose plan is empty: the single incoming row
matches the single existing row field-by-field. -/
def c10Args : MergeArgs where
  rows := [[("u_k", "a")]]
  existing := [[("u_k", "a"), ("sys_id", "e1")]]
  conv := id
  pk := fun r => r.getD "u_k"
  deletedFlag := "u_in_datamart"
  allowDeletes := false
  schema := ["u_k"]
  now := "2024-01-01 00:00:00"

/-- Witness for `c10_merge_empty_plan_frame` at the concrete run
`c10Args`: one matched row, empty plan, empty effect trace. -/
theorem c10_merge_empty_plan_frame_witness :
    merge c10Args = .ok ⟨[], [], [], 1⟩
    ∧ (mergeResult ⟨[], [], [], 1⟩ = ⟨1, 0, 0, 0⟩
      ∧ ∀ failIdx,
          mergeTrace ⟨[], [], [], 1⟩ c10Args.allowDeletes c10Args.hasFlag failIdx
            = []) :=
  ⟨by rfl,
    c10_merge_empty_plan_frame c10Args ⟨[], [], [], 1⟩ (by rfl) rfl rfl rfl⟩

end CDelta

/-! ## Claim C4: classification of existing rows -/

namespace CDelta

/-- On a successful run the plan's delete list is exactly the output of the
delete-planning phase. -/
theorem merge_ok_delete (a : MergeArgs) (p : MergePlan) (h : merge a = .ok p) :
    p.delete = planDeletes a.pk a.deletedFlag a.hasFlag a.allowDeletes
      (indexRows a.conv a.pk a.rows).index (indexRows a.conv a.pk a.existing) := by
  simp only [merge] at h
  cases hq : (indexRows a.conv a.pk a.rows).processed.foldlM
      (planIncoming a.pk a.schema a.deletedFlag a.hasFlag a.now
        (indexRows a.conv a.pk a.existing).index) {} with
  | error e =>
    rw [hq] at h
    exact Except.noConfusion h
  | ok q =>
    rw [hq] at h
    replace h : Except.ok { q with delete := planDeletes a.pk a.deletedFlag a.hasFlag a.allowDeletes (indexRows a.conv a.pk a.rows).index (indexRows a.conv a.pk a.existing) } = Except.ok p := h
    simp only [Except.ok.injEq] at h
    subst h
    rfl

/-- A successfully scanned existing row contributes its delete payload,
provided deletes are possible at all. -/
theorem scanned_mem_planDeletes (pk : Row → String) (flag : String)
    (hasFlag allowDeletes : Bool) (incIndex : List (String × Row)) (exSt : IndexSt)
    (ex : Row) (hex : ex ∈ exSt.processed)
    (hscan : deleteScan pk flag hasFlag allowDeletes incIndex ex
      = some (ex.getD "sys_id"))
    (hguard : (allowDeletes || hasFlag) = true) :
    deletePayload hasFlag flag (ex.getD "sys_id")
      ∈ planDeletes pk flag hasFlag allowDeletes incIndex exSt := by
  simp only [planDeletes, hguard, if_pos]
  refine List.mem_map_of_mem _ ?_
  refine List.mem_append_left _ ?_
  exact List.mem_filterMap.2 ⟨ex, hex, hscan⟩

/-- Every duplicate existing row contributes its delete payload, provided
deletes are possible at all. -/
theorem dup_mem_planDeletes (pk : Row → String) (flag : String)
    (hasFlag allowDeletes : Bool) (incIndex : List (String × Row)) (exSt : IndexSt)
    (ex : Row) (hex : ex ∈ exSt.dups)
    (hguard : (allowDeletes || hasFlag) = true) :
    deletePayload hasFlag flag (ex.getD "sys_id")
      ∈ planDeletes pk flag hasFlag allowDeletes incIndex exSt := by
  simp only [planDeletes, hguard, if_pos]
  refine List.mem_map_of_mem _ ?_
  refine List.mem_append_right _ ?_
  exact List.mem_map_of_mem _ hex

end CDelta

namespace CDelta

/-- Concrete input refuting C4 as stated: `allowDeletes` is false, the
deleted-flag column is absent from the schema, and the existing rows contain
a duplicate-keyed row. -/
def c4Args : MergeArgs where
  rows := []
  existing := [[("u_k", "a"), ("sys_id", "s1")], [("u_k", "a"), ("sys_id", "s2")]]
  conv := id
  pk := fun r => r.getD "u_k"
  deletedFlag := "u_in_datamart"
  allowDeletes := false
  schema := ["u_k"]
  now := "2024-01-01 00:00:00"

/-- **C4, counterexample.** On `c4Args` the existing row with `sys_id` `s2`
is duplicate-keyed, yet the computed plan's delete list is empty: when
`allowDeletes` is false and the deleted-flag column is not in the schema,
duplicate-keyed existing rows are *not* placed in the delete list, refuting
the claim's "always". -/
theorem c4_counterexample :
    (indexRows c4Args.conv c4Args.pk c4Args.existing).dups
        = [[("u_k", "a"), ("sys_id", "s2")]]
    ∧ merge c4Args = .ok ⟨[], [], [], 0⟩ :=
  ⟨by rfl, by rfl⟩

/-- **C4, amended.** For every successful delta-merge run: every processed
existing row whose primary key is non-empty and absent from the incoming
index is classified as follows — if `allowDeletes` is true its delete
payload is in the delete list (and the delete phase issues a DELETE for
every delete-list row); otherwise, if the deleted-flag column exists in the
schema and the row is not already flagged (flag value `"0"`), its payload,
which sets the flag to `"0"`, is in the delete list (and the delete phase
issues an update for every delete-list row).  Every duplicate-keyed existing
row is placed in the delete list *provided deletes are possible at all*,
i.e. `allowDeletes` is true or the deleted-flag column exists in the schema
(the amendment forced by `c4_counterexample`). -/
theorem c4_existing_row_classification (a : MergeArgs) (p : MergePlan)
    (h : merge a = .ok p) :
    (∀ ex ∈ (indexRows a.conv a.pk a.existing).processed,
      a.pk ex ≠ "" →
      ((indexRows a.conv a.pk a.rows).index.lookup (a.pk ex)).isSome = false →
      (a.allowDeletes = true →
        deletePayload a.hasFlag a.deletedFlag (ex.getD "sys_id") ∈ p.delete)
      ∧ (a.allowDeletes = false → a.hasFlag = true →
          ¬ ex.get? a.deletedFlag = some "0" →
          deletePayload true a.deletedFlag (ex.getD "sys_id") ∈ p.delete))
    ∧ ((a.allowDeletes || a.hasFlag) = true →
        ∀ ex ∈ (indexRows a.conv a.pk a.existing).dups,
          deletePayload a.hasFlag a.deletedFlag (ex.getD "sys_id") ∈ p.delete)
    ∧ (a.allowDeletes = true → ∀ r ∈ p.delete,
        Effect.deleteRow r ∈ planWrites p a.allowDeletes a.hasFlag)
    ∧ (a.allowDeletes = false → a.hasFlag = true → ∀ r ∈ p.delete,
        Effect.updateRow r ∈ planWrites p a.allowDeletes a.hasFlag) := by
  have hdel := merge_ok_delete a p h
  refine ⟨?_, ?_, ?_, ?_⟩
  · intro ex hex hpk hinc
    constructor
    · intro hAD
      rw [hdel]
      refine scanned_mem_planDeletes a.pk a.deletedFlag a.hasFlag a.allowDeletes
        _ _ ex hex ?_ (by simp [hAD])
      simp only [deleteScan, hpk, hinc, Bool.or_self, hAD, Bool.not_true,
        Bool.false_and, if_neg, if_false]
      simp [hpk, hinc]
    · intro hAD hHF hflag
      rw [hdel]
      have hsome : deleteScan a.pk a.deletedFlag a.hasFlag a.allowDeletes
          (indexRows a.conv a.pk a.rows).index ex = some (ex.getD "sys_id") := by
        simp only [deleteScan, hAD, hHF]
        rw [if_neg (by simp [hpk, hinc])]
        rw [if_neg (by simp [hflag])]
      have := scanned_mem_planDeletes a.pk a.deletedFlag a.hasFlag a.allowDeletes
        (indexRows a.conv a.pk a.rows).index (indexRows a.conv a.pk a.existing)
        ex hex hsome (by simp [hHF])
      rw [hHF]
      rw [hHF] at this
      exact this
  · intro hguard ex hex
    rw [hdel]
    exact dup_mem_planDeletes a.pk a.deletedFlag a.hasFlag a.allowDeletes
      _ _ ex hex hguard
  · intro hAD r hr
    simp only [planWrites]
    refine List.mem_append_right _ ?_
    exact List.mem_filterMap.2 ⟨r, hr, by simp [hAD]⟩
  · intro hAD hHF r hr
    simp only [planWrites]
    refine List.mem_append_right _ ?_
    exact List.mem_filterMap.2 ⟨r, hr, by simp [hAD, hHF]⟩

end CDelta

namespace CDelta

/-- Concrete input for the C4 witness: the spec's soft-delete scenario — the
deleted-flag column is in the schema, `allowDeletes` is false, row `a1`
matches and row `a2` is absent from the incoming set. -/
def c4WArgs : MergeArgs where
  rows := [[("u_k", "a1"), ("u_name", "n1")]]
  existing := [[("u_k", "a1"), ("u_name", "n1"), ("u_in_datamart", "1"), ("sys_id", "e1")],
    [("u_k", "a2"), ("u_in_datamart", "1"), ("sys_id", "e2")]]
  conv := id
  pk := fun r => r.getD "u_k"
  deletedFlag := "u_in_datamart"
  allowDeletes := false
  schema := ["u_k", "u_name", "u_in_datamart"]
  now := "2024-01-01 00:00:00"

/-- The plan computed on `c4WArgs`: one soft delete, one matched row. -/
def c4WPlan : MergePlan :=
  ⟨[], [], [[("sys_id", "e2"), ("u_in_datamart", "0")]], 1⟩

/-- Witness for `c4_existing_row_classification`: on `c4WArgs` the existing
row `a2` is soft-deleted, its payload setting the flag to `"0"`. -/
theorem c4_existing_row_classification_witness :
    merge c4WArgs = .ok c4WPlan
    ∧ deletePayload true "u_in_datamart" "e2" ∈ c4WPlan.delete :=
  ⟨by rfl,
    ((c4_existing_row_classification c4WArgs c4WPlan (by rfl)).1
        [("u_k", "a2"), ("u_in_datamart", "1"), ("sys_id", "e2")]
        (by decide) (by decide) (by rfl)).2 rfl (by rfl) (by decide)⟩

end CDelta

/-! ## Transport retry loop (`src/unnamed/part_006`, `ServiceNowClient.do`,
lines 157-211)

The loop keeps `resp` (last received response) and `respErr` (last thrown
error) across iterations.  Before each HTTP attempt `respErr` is reset
(line 191) but `resp` is *not*: when an attempt throws, `resp` still holds
the previous attempt's response, and the `resp && resp.status === 429` check
at line 202 can therefore fire on a stale response. -/

namespace ServiceNowClient

/-- Outcome of one HTTP attempt: a response with its status code, or a
thrown error carrying the error code string. -/
inductive Outcome
  | resp (status : Nat)
  | err (code : String)

/-- The connection-error codes the catch block retries on (line 197). -/
def retryableCode (c : String) : Bool :=
  c = "ECONNRESET" || c = "EAI_AGAIN" || c = "ETIMEDOUT"

/-- Observable result of the retry loop: the number of HTTP attempts issued,
the number of backoff sleeps performed, and either the thrown string or the
final response status. -/
structure DoRun where
  calls : Nat
  sleeps : Nat
  result : Except String Nat
deriving Repr

/-- The retry loop (lines 160-211).  `out n` is the outcome of the `n`-th
HTTP attempt; `attempt` and the stale `resp` mirror the source variables,
and the first (structural) argument is `3 − attempt`.  At the top of an
iteration with `attempt === 3` the loop throws `Too many retries`
(line 167) before sleeping or calling; otherwise a retry iteration sleeps
first (line 179).  A response outcome overwrites `resp` and
retries exactly on status 429 (line 202); a thrown outcome leaves `resp`
stale and retries when its code is retryable (line 197) *or* the stale
response had status 429.  On loop exit a pending `respErr` is thrown
(line 210-212). -/
def doLoop (out : Nat → Outcome) :
    Nat → Nat → Option Nat → Nat → Nat → DoRun
  | 0, _, _, calls, sleeps => ⟨calls, sleeps, .error "Too many retries"⟩
  | left + 1, attempt, resp, calls, sleeps =>
    let sleeps' := if attempt > 0 then sleeps + 1 else sleeps
    match out attempt with
    | .resp s =>
      if s = 429 then doLoop out left (attempt + 1) (some s) (calls + 1) sleeps'
      else ⟨calls + 1, sleeps', .ok s⟩
    | .err c =>
      if retryableCode c || resp == some 429 then
        doLoop out left (attempt + 1) resp (calls + 1) sleeps'
      else ⟨calls + 1, sleeps', .error c⟩

/-- The whole retry phase of `ServiceNowClient.do`, starting at attempt 0
with no response and no error.  The structural counter starts at 3 and is
`3 − attempt` throughout, so it reaches 0 exactly when `attempt === 3`
(line 166). -/
def doRun (out : Nat → Outcome) : DoRun :=
  doLoop out 3 0 none 0 0

/-- Attempt outcomes refuting C2: the first attempt gets HTTP 429, every
later attempt throws `ECONNREFUSED`, which is not a retryable code. -/
def c2Out : Nat → Outcome
  | 0 => .resp 429
  | _ => .err "ECONNREFUSED"

/-- **C2, failing input.** `ECONNREFUSED` is not in the retry set, so by the
claim the second attempt's failure should be raised immediately with no
further attempt.  Instead the stale 429 response kept in `resp` makes the
loop retry twice more: three HTTP attempts are issued, two backoff sleeps
happen, and the call fails with `Too many retries` rather than raising the
non-retryable error. -/
theorem c2_stale_429_retries_nonretryable_error :
    doRun c2Out = ⟨3, 2, .error "Too many retries"⟩
    ∧ retryableCode "ECONNREFUSED" = false :=
  ⟨by rfl, by rfl⟩

end ServiceNowClient

/-! ## Schema cache (`src/unnamed/part_004`, `CSchema.get`, lines 16-85)

`CSchema.get` keeps `cache[tableName]` holding either a pending Promise or a
published schema carrying an `EXPIRES_AT` stamp.  The JS event loop is
single-threaded: the code between two `await`s of one caller runs atomically.
The model fixes one table name and replays a sequence of atomic events: a
caller entering `get` (lines 16-42: return fresh cached value, subscribe to
a pending fetch, or install the promise and issue the HTTP request), the
arrival of the HTTP response (lines 43-84: publish the schema with a
five-minute expiry, resolve the promise — which re-runs every waiter's
re-read at lines 25-31 before the clock can advance — and return), and a
clock advance.  Schemas are abstracted as numbers. -/

namespace CSchema

/-- `EXPIRE_AFTER = 5 * 60 * 1000` (line 4). -/
def EXPIRE_AFTER : Nat := 5 * 60 * 1000

/-- One cache slot: absent, a pending promise (with the caller that issued
the fetch and the awaiting callers), or a published schema with its
`EXPIRES_AT` stamp (lines 79-81). -/
inductive Entry
  | empty
  | pending (fetcher : Nat) (waiters : List Nat)
  | ready (schema : Nat) (expiresAt : Nat)
deriving Repr, DecidableEq

/-- The observable cache state: the slot, the clock (`+new Date()`), the
number of SCHEMA HTTP requests issued (line 38), and which schema value each
`get` call returned. -/
structure CacheSt where
  entry : Entry := .empty
  clock : Nat := 0
  httpCount : Nat := 0
  results : List (Nat × Nat) := []
deriving Repr, DecidableEq

/-- Atomic events: caller `id` enters `get` (without invalidation), the
SCHEMA response arrives carrying schema `s`, or the clock advances by `d`
milliseconds. -/
inductive Ev
  | call (id : Nat)
  | response (s : Nat)
  | tick (d : Nat)

/-- One atomic step.  A call on a fresh `ready` entry returns it (lines
29-31); on an expired one it deletes the entry and becomes the fetcher
(lines 32, 34-42); on a `pending` entry it awaits the promise (lines
25-27); on an absent entry it becomes the fetcher.  The response publishes
the schema with expiry `clock + EXPIRE_AFTER` (line 80), returns it to the
fetcher (line 84), and resumes every waiter, each of which re-reads the
cache and re-checks the expiry (lines 27-31) — the clock has not advanced,
so each sees the fresh entry. -/
def step (st : CacheSt) (e : Ev) : CacheSt :=
  match e with
  | .tick d => { st with clock := st.clock + d }
  | .call id =>
    match st.entry with
    | .pending f ws => { st with entry := .pending f (ws ++ [id]) }
    | .ready s exp =>
      if st.clock < exp then { st with results := st.results ++ [(id, s)] }
      else { st with entry := .pending id [], httpCount := st.httpCount + 1 }
    | .empty => { st with entry := .pending id [], httpCount := st.httpCount + 1 }
  | .response s =>
    match st.entry with
    | .pending f ws =>
      { st with entry := .ready s (st.clock + EXPIRE_AFTER),
                results := st.results ++ (f, s) ::
                  ws.filterMap (fun w =>
                    if st.clock < st.clock + EXPIRE_AFTER then some (w, s)
                    else none) }
    | _ => st

/-- Replay a sequence of events from the cold cache. -/
def run (evs : List Ev) : CacheSt :=
  evs.foldl step {}

/-- While a fetch is pending, further calls only subscribe: no HTTP request,
no results, no clock movement. -/
theorem calls_on_pending (l : List Nat) (f : Nat) (ws : List Nat) (c n : Nat)
    (rs : List (Nat × Nat)) :
    (l.map Ev.call).foldl step ⟨.pending f ws, c, n, rs⟩
      = ⟨.pending f (ws ++ l), c, n, rs⟩ := by
  induction l generalizing ws with
  | nil => simp
  | cons x xs ih =>
    simp only [List.map_cons, List.foldl_cons, step]
    rw [ih (ws ++ [x])]
    simp

/-- **C9.** If `N ≥ 1` callers request the schema of a table while it is
uncached, the SCHEMA HTTP request is issued exactly once and every caller
observes the same published schema value; the published entry expires
`EXPIRE_AFTER` (5 minutes) after publication, so the next access after that
triggers a second fetch. -/
theorem c9_schema_cache_coalescing (i : Nat) (rest : List Nat) (s j : Nat) :
    ((run ((i :: rest).map Ev.call ++ [Ev.response s])).httpCount = 1
      ∧ ∀ id ∈ i :: rest, (id, s) ∈ (run ((i :: rest).map Ev.call ++ [Ev.response s])).results)
    ∧ (run ((i :: rest).map Ev.call
        ++ [Ev.response s, Ev.tick EXPIRE_AFTER, Ev.call j])).httpCount = 2 := by
  have hcalls : ((i :: rest).map Ev.call).foldl step {}
      = ⟨.pending i rest, 0, 1, []⟩ := by
    simp only [List.map_cons, List.foldl_cons]
    have h0 : step {} (Ev.call i) = ⟨.pending i [], 0, 1, []⟩ := rfl
    rw [h0, calls_on_pending rest i [] 0 1 []]
    simp
  have hresp : run ((i :: rest).map Ev.call ++ [Ev.response s])
      = ⟨.ready s EXPIRE_AFTER, 0, 1, (i, s) :: rest.map (fun w => (w, s))⟩ := by
    simp only [run, List.foldl_append, hcalls]
    simp only [List.foldl_cons, List.foldl_nil, step]
    congr 1
    have hfm : ∀ (l : List Nat), l.filterMap (fun w => some (w, s)) = l.map (fun w => (w, s)) := by
      intro l
      induction l with
      | nil => rfl
      | cons a t ih => simp [List.filterMap_cons, ih]
    simp [EXPIRE_AFTER, hfm]
  refine ⟨⟨?_, ?_⟩, ?_⟩
  · rw [hresp]
  · intro id hid
    rw [hresp]
    rcases List.mem_cons.1 hid with h | h
    · subst h
      exact List.mem_cons_self _ _
    · exact List.mem_cons_of_mem _ (List.mem_map_of_mem _ h)
  · have : run ((i :: rest).map Ev.call ++ [Ev.response s, Ev.tick EXPIRE_AFTER, Ev.call j])
        = step (step (run ((i :: rest).map Ev.call ++ [Ev.response s])) (Ev.tick EXPIRE_AFTER)) (Ev.call j) := by
      simp only [run, List.foldl_append, List.foldl_cons, List.foldl_nil]
    rw [this, hresp]
    simp [step, EXPIRE_AFTER]

end CSchema

/-! ## Glide date-time coercion (`src/unnamed/part_004`,
`CSchema.convertJS` lines 168-190 and `CSchema.convertSN` lines 283-293;
`snowDate` in `src/unnamed/part_009` lines 378-387)

`convertJS` matches the wire format `YYYY-MM-DD HH:MM:SS` or the display
format `DD-MM-YYYY HH:MM:SS` and builds
`new Date("YYYY-MM-DDTHH:MM:SSZ")` from the captured components — both
branches produce a UTC instant.  `convertSN` encodes a `Date` through
`snowDate`, i.e. `toISOString()` with `T` replaced by a space and the
millisecond-plus-`Z` suffix stripped. -/

namespace CSchema

/-- A valid JS `Date` as a UTC civil time (what `toISOString` prints). -/
structure JSDate where
  year : Nat
  month : Nat
  day : Nat
  hour : Nat
  minute : Nat
  second : Nat
  ms : Nat := 0
deriving Repr, DecidableEq

def isLeap (y : Nat) : Bool :=
  (y % 4 = 0 && y % 100 ≠ 0) || y % 400 = 0

def daysInMonth (y m : Nat) : Nat :=
  if m = 2 then (if isLeap y then 29 else 28)
  else if m = 4 || m = 6 || m = 9 || m = 11 then 30
  else 31

/-- The next calendar day (for the ISO `24:00:00` normalisation). -/
def nextDay (y m d : Nat) : Nat × Nat × Nat :=
  if d < daysInMonth y m then (y, m, d + 1)
  else if m < 12 then (y, m + 1, 1)
  else (y + 1, 1, 1)

/-- `new Date(`${yyyy}-${mm}-${dd}T${time}Z`)` (line 186): the ES ISO parse
accepts only valid civil components (plus `24:00:00` as midnight of the next
day) and yields an invalid date otherwise, which line 187 turns into a
thrown `Invalid date`. -/
def mkUTCDate (y m d hh mi ss : Nat) : Option JSDate :=
  if 1 ≤ m ∧ m ≤ 12 ∧ 1 ≤ d ∧ d ≤ daysInMonth y m then
    if hh ≤ 23 ∧ mi ≤ 59 ∧ ss ≤ 59 then
      some ⟨y, m, d, hh, mi, ss, 0⟩
    else if hh = 24 ∧ mi = 0 ∧ ss = 0 then
      some ⟨(nextDay y m d).1, (nextDay y m d).2.1, (nextDay y m d).2.2, 0, 0, 0, 0⟩
    else none
  else none

def digitVal (c : Char) : Nat := c.toNat - 48

/-- `/^(\d\d\d\d)-(\d\d)-(\d\d) (\d\d:\d\d:\d\d)$/` (line 172), returning
the captured year, month, day, hour, minute, second. -/
def parseWire (s : String) : Option (Nat × Nat × Nat × Nat × Nat × Nat) :=
  match s.data with
  | [y1, y2, y3, y4, '-', m1, m2, '-', d1, d2, ' ', h1, h2, ':', n1, n2, ':', s1, s2] =>
    if y1.isDigit && y2.isDigit && y3.isDigit && y4.isDigit && m1.isDigit && m2.isDigit
        && d1.isDigit && d2.isDigit && h1.isDigit && h2.isDigit && n1.isDigit
        && n2.isDigit && s1.isDigit && s2.isDigit then
      some (digitVal y1 * 1000 + digitVal y2 * 100 + digitVal y3 * 10 + digitVal y4,
        digitVal m1 * 10 + digitVal m2, digitVal d1 * 10 + digitVal d2,
        digitVal h1 * 10 + digitVal h2, digitVal n1 * 10 + digitVal n2,
        digitVal s1 * 10 + digitVal s2)
    else none
  | _ => none

/-- `/^(\d\d)-(\d\d)-(\d\d\d\d) (\d\d:\d\d:\d\d)$/` (line 178), returning
year, month, day, hour, minute, second with day and month swapped into
place. -/
def parseDisplay (s : String) : Option (Nat × Nat × Nat × Nat × Nat × Nat) :=
  match s.data with
  | [d1, d2, '-', m1, m2, '-', y1, y2, y3, y4, ' ', h1, h2, ':', n1, n2, ':', s1, s2] =>
    if d1.isDigit && d2.isDigit && m1.isDigit && m2.isDigit && y1.isDigit && y2.isDigit
        && y3.isDigit && y4.isDigit && h1.isDigit && h2.isDigit && n1.isDigit
        && n2.isDigit && s1.isDigit && s2.isDigit then
      some (digitVal y1 * 1000 + digitVal y2 * 100 + digitVal y3 * 10 + digitVal y4,
        digitVal m1 * 10 + digitVal m2, digitVal d1 * 10 + digitVal d2,
        digitVal h1 * 10 + digitVal h2, digitVal n1 * 10 + digitVal n2,
        digitVal s1 * 10 + digitVal s2)
    else none
  | _ => none

/-- The `glide_date_time` branch of `convertJS` (lines 168-190): try the
wire format, then the display format, else throw `Unexpected date format`;
then build the UTC date and throw `Invalid date` when it is invalid. -/
def convertJSDate (v : String) : Except String JSDate :=
  match parseWire v with
  | some (y, m, d, hh, mi, ss) =>
    match mkUTCDate y m d hh mi ss with
    | some dt => .ok dt
    | none => .error ("Invalid date " ++ v)
  | none =>
    match parseDisplay v with
    | some (y, m, d, hh, mi, ss) =>
      match mkUTCDate y m d hh mi ss with
      | some dt => .ok dt
      | none => .error ("Invalid date " ++ v)
    | none => .error ("Unexpected date format " ++ v)

def pad2 (n : Nat) : String :=
  if n < 10 then "0" ++ toString n else toString n

def pad4 (n : Nat) : String :=
  if n < 10 then "000" ++ toString n
  else if n < 100 then "00" ++ toString n
  else if n < 1000 then "0" ++ toString n
  else toString n

/-- `snowDate` (`src/unnamed/part_009` lines 378-387):
`toISOString().replace("T", " ").replace(/(\.\d+)?Z/, "")` — the UTC civil
time with the milliseconds dropped.  This is the `glide_date_time` encoding
used by `convertSN` (part_004 line 293). -/
def snowDate (d : JSDate) : String :=
  pad4 d.year ++ "-" ++ pad2 d.month ++ "-" ++ pad2 d.day ++ " "
    ++ pad2 d.hour ++ ":" ++ pad2 d.minute ++ ":" ++ pad2 d.second

/-- **C6.** Decoding the wire string `"2024-03-15 08:09:10"` yields the UTC
instant 2024-03-15T08:09:10Z; encoding that instant yields the same wire
string, and the milliseconds are dropped whatever they are; decoding also
accepts the display format `DD-MM-YYYY HH:MM:SS` for the same instant; and
a string in neither format is an error. -/
theorem c6_glide_date_time_round_trip :
    convertJSDate "2024-03-15 08:09:10" = .ok ⟨2024, 3, 15, 8, 9, 10, 0⟩
    ∧ snowDate ⟨2024, 3, 15, 8, 9, 10, 0⟩ = "2024-03-15 08:09:10"
    ∧ convertJSDate "15-03-2024 08:09:10" = .ok ⟨2024, 3, 15, 8, 9, 10, 0⟩
    ∧ (∀ ms, snowDate ⟨2024, 3, 15, 8, 9, 10, ms⟩ = "2024-03-15 08:09:10")
    ∧ (∀ s, parseWire s = none → parseDisplay s = none →
        convertJSDate s = .error ("Unexpected date format " ++ s)) := by
  have hms : ∀ ms, snowDate ⟨2024, 3, 15, 8, 9, 10, ms⟩
      = snowDate ⟨2024, 3, 15, 8, 9, 10, 0⟩ := fun ms => rfl
  refine ⟨by rfl, by rfl, by rfl, fun ms => by rw [hms ms]; rfl, ?_⟩
  intro s h1 h2
  simp [convertJSDate, h1, h2]

/-- Witness for `c6_glide_date_time_round_trip`: the non-format string
`"hello"` is rejected, and nonzero milliseconds are dropped on encoding. -/
theorem c6_glide_date_time_round_trip_witness :
    convertJSDate "hello" = .error ("Unexpected date format " ++ "hello")
    ∧ snowDate ⟨2024, 3, 15, 8, 9, 10, 123⟩ = "2024-03-15 08:09:10" :=
  ⟨c6_glide_date_time_round_trip.2.2.2.2 "hello" (by rfl) (by rfl),
    c6_glide_date_time_round_trip.2.2.2.1 123⟩

end CSchema

/-! ## `getRecords` row-count gate (`src/unnamed/part_006`,
`ServiceNowClient.getRecords`, lines 447-509)

After the count request (`getCount`, line 448) the function throws when the
count exceeds 100 000 (lines 449-452) and otherwise fetches
`Math.ceil(maxRecords / pageSize)` pages (lines 457-479). -/

namespace ServiceNowClient

/-- Pagination options of `getRecords`; `none` models an absent (or any
falsy) option, matching the `opts.maxRecords ? … : …` truthiness tests. -/
structure GetRecordsOpts where
  maxRecords : Option Nat := none
  pageSize : Option Nat := none
deriving Repr

/-- `opts.maxRecords ? Math.min(count, opts.maxRecords) : count`
(lines 457-459); a zero option is falsy in JS. -/
def effectiveMax (count : Nat) (o : GetRecordsOpts) : Nat :=
  match o.maxRecords with
  | some m => if m = 0 then count else min count m
  | none => count

/-- `Math.min(maxRecords, opts.pageSize ? opts.pageSize : 500)` (line 460). -/
def effectivePageSize (count : Nat) (o : GetRecordsOpts) : Nat :=
  min (effectiveMax count o)
    (match o.pageSize with
      | some p => if p = 0 then 500 else p
      | none => 500)

/-- `Math.ceil(maxRecords / pageSize)` (line 461); when both are zero the JS
expression is `NaN` and the page loop runs zero times. -/
def totalPages (count : Nat) (o : GetRecordsOpts) : Nat :=
  if effectivePageSize count o = 0 then 0
  else (effectiveMax count o + effectivePageSize count o - 1) / effectivePageSize count o

/-- The quota gate and paging plan (lines 447-468): fail when the count
exceeds 100 000 (the thrown string's `100,00` typo is the source's),
otherwise fetch the pages `0 … totalPages − 1`. -/
def getRecordsPages (count : Nat) (o : GetRecordsOpts) : Except String (List Nat) :=
  if count > 100000 then
    .error "table has over 100,00 rows"
  else
    .ok (List.range (totalPages count o))

/-- Requests observable on the wire. -/
inductive Req
  | countReq
  | pageReq (page : Nat)
deriving Repr, DecidableEq

/-- `true` exactly on the thrown-quota outcome. -/
def quotaFailed (r : Except String (List Nat)) : Bool :=
  match r with
  | .error _ => true
  | .ok _ => false

/-- The requests issued by a `getRecords` call that does not opt into the
record cache: the stats count request first, then — only when the quota
gate passes — one table request per page. -/
def getRecordsRequests (count : Nat) (o : GetRecordsOpts) : List Req :=
  Req.countReq ::
    (match getRecordsPages count o with
      | .ok pages => pages.map Req.pageReq
      | .error _ => [])

/-- **C7.** `getRecords` fails with the quota error exactly when the remote
count exceeds 100 000: for every count and options the gate fails iff
`count > 100000`; a count of exactly 100 000 proceeds and fetches 200 pages
of 500; a count of 100 001 fails with the count request as the only request
issued — no page is fetched. -/
theorem c7_getRecords_quota (count : Nat) (o : GetRecordsOpts) :
    quotaFailed (getRecordsPages count o) = decide (100000 < count)
    ∧ getRecordsRequests 100000 {} = Req.countReq :: (List.range 200).map Req.pageReq
    ∧ getRecordsRequests 100001 {} = [Req.countReq]
    ∧ quotaFailed (getRecordsPages 100001 {}) = true := by
  refine ⟨?_, by rfl, by rfl, by rfl⟩
  by_cases h : 100000 < count
  · simp [getRecordsPages, quotaFailed, h]
  · simp [getRecordsPages, quotaFailed, h]

end ServiceNowClient

/-! ## Column sub-reconciler (`src/fake-api.js`, class `CColumn`, method
`sync`, lines 366-527) and table reconciler (`src/unnamed/part_006`, class
`CTable`, methods `sync` lines 942-1008 and `commitAll` lines 1014-1033)

`CColumn.sync` diffs the desired columns against the existing descriptor and
returns a map `dmId → pending action` without committing anything; an
`error`-kind action carries no commit.  `CTable.sync` produces either a
create-table action (table absent) or the column map (table present), never
both.  `CTable.commitAll` executes the table action if present, then checks
the column actions: if any is an `error` it throws, reporting all errors
collectively, and commits no column action. -/

namespace CColumn

/-- A desired column as handed to `CColumn.sync` (after `expandTable`);
`none` models an absent (JS `undefined`) property. -/
structure Col where
  id : Option String := none
  name : String
  label : Option String := none
  max_length : Option Nat := none
  choice : Option Nat := none
  choice_map : Option (List (String × String)) := none
  data_policy : Option String := none
  type : Option String := none
  reference_table : Option String := none
deriving Repr, DecidableEq

/-- An existing column of the flattened table descriptor (`CTable.get`):
`choice` is the descriptor's string form (`nullable` / `suggestion` /
`required`), `table` the deepest defining ancestor. -/
structure ECol where
  sys_id : String := ""
  label : Option String := none
  max_length : Option Nat := none
  choice : Option String := none
  choice_map : Option (List (String × String)) := none
  data_policy : Option String := none
  type : Option String := none
  reference_table : Option String := none
  table : String := ""
  sys_created_by : Option String := none
deriving Repr, DecidableEq

inductive ActionKind
  | create
  | update
  | delete
  | error
deriving Repr, DecidableEq

/-- A pending action (`{name, type, description, commit}`); `error` actions
carry no commit. -/
structure Action where
  name : String
  kind : ActionKind
  description : String
deriving Repr, DecidableEq

/-- `${v}` for a possibly-undefined string. -/
def optS (o : Option String) : String :=
  match o with
  | some s => s
  | none => "undefined"

/-- `${v}` for a possibly-undefined number. -/
def optN (o : Option Nat) : String :=
  match o with
  | some n => toString n
  | none => "undefined"

/-- The choice-string to number mapping of lines 413-422; an unknown string
throws. -/
def choiceNum (s : String) : Except String Nat :=
  if s = "nullable" then .ok 1
  else if s = "suggestion" then .ok 2
  else if s = "required" then .ok 3
  else .error ("sync-column: unknown choice string " ++ s)

/-- The `label` comparison of the lines 411-428 loop: changed iff the
desired column has a label differing from the existing one (`undefined`
values compare unequal to any present value). -/
def labelDiff (col : Col) (ecol : ECol) : Option String :=
  match col.label with
  | some l =>
    if some l ≠ ecol.label then
      some ("\"label\" from \"" ++ optS ecol.label ++ "\" to \"" ++ l ++ "\"")
    else none
  | none => none

/-- The `max_length` comparison of the same loop. -/
def maxLenDiff (col : Col) (ecol : ECol) : Option String :=
  match col.max_length with
  | some m =>
    if some m ≠ ecol.max_length then
      some ("\"max_length\" from \"" ++ optN ecol.max_length ++ "\" to \"" ++ toString m ++ "\"")
    else none
  | none => none

/-- The `choice` comparison: the existing string is first mapped to its
number (throwing on an unknown string, even when the desired column has no
`choice`); changed iff the desired column's number differs. -/
def choiceDiff (col : Col) (ecol : ECol) : Except String (Option String) := do
  let v : Option Nat ←
    match ecol.choice with
    | some s => do
      let n ← choiceNum s
      pure (some n)
    | none => pure none
  match col.choice with
  | some c =>
    if some c ≠ v then
      pure (some ("\"choice\" from \"" ++ optN v ++ "\" to \"" ++ toString c ++ "\""))
    else pure none
  | none => pure none

/-- The `choice_map` deep-equality comparison (lines 431-438). -/
def choiceMapChanged (col : Col) (ecol : ECol) : Bool :=
  match col.choice_map with
  | some m => decide (some m ≠ ecol.choice_map)
  | none => false

/-- The `data_policy` strict comparison (lines 440-447). -/
def dataPolicyChanged (col : Col) (ecol : ECol) : Bool :=
  decide (col.data_policy ≠ ecol.data_policy)

/-- The immutable-field check of lines 453-468, in field order `type`,
`reference_table`: the first present-and-differing field yields the error
action naming both values. -/
def immutableErr (col : Col) (ecol : ECol) : Option Action :=
  if col.type.isSome ∧ col.type ≠ ecol.type then
    some ⟨col.name, .error,
      "Column \"" ++ col.name ++ "\" type differs (" ++ optS ecol.type ++ " => "
        ++ optS col.type ++ "), however it cannot be updated"⟩
  else if col.reference_table.isSome ∧ col.reference_table ≠ ecol.reference_table then
    some ⟨col.name, .error,
      "Column \"" ++ col.name ++ "\" reference_table differs ("
        ++ optS ecol.reference_table ++ " => " ++ optS col.reference_table
        ++ "), however it cannot be updated"⟩
  else none

end CColumn

namespace CColumn

/-- JS `pending[k] = v`: upsert into the pending map, preserving key
order. -/
def setEntry (l : List (String × Action)) (k : String) (a : Action) :
    List (String × Action) :=
  match l with
  | [] => [(k, a)]
  | (k', a') :: rest =>
    if k' = k then (k, a) :: rest else (k', a') :: setEntry rest k a

/-- JS `name.startsWith("u_")` / `/^u_/.test(name)`. -/
def startsWithU (s : String) : Bool :=
  match s.data with
  | 'u' :: '_' :: _ => true
  | _ => false

/-- The rename check of lines 370-380: the desired `id` is present, differs
from `name`, and `id` already exists on the table. -/
def renameClash (existing : List (String × ECol)) (col : Col) : Bool :=
  match col.id with
  | some i => !(i == col.name) && (existing.lookup i).isSome
  | none => false

/-- One iteration of the desired-column loop of `CColumn.sync` (lines
368-498) for the desired column `col`: the pending action to file under the
column's map key, if any, or the thrown string. -/
def syncOne (tableName : String) (existing : List (String × ECol)) (col : Col) :
    Except String (Option Action) :=
  if renameClash existing col then
    .ok (some ⟨optS col.id, .error,
      "Column \"" ++ optS col.id ++ "\" already exists on \"" ++ tableName
        ++ "\" but attempting to create as \"" ++ col.name ++ "\""⟩)
  else
    match existing.lookup col.name with
    | none =>
      if ¬ startsWithU col.name then
        .ok (some ⟨col.name, .error,
          "Create column \"" ++ col.name
            ++ "\" not allowed, does not start with \"u_\""⟩)
      else
        .ok (some ⟨col.name, .create, "Create new column \"" ++ col.name ++ "\""⟩)
    | some ecol =>
      match choiceDiff col ecol with
      | .error e => .error e
      | .ok dChoice =>
      let dLabel := labelDiff col ecol
      let dMaxLen := maxLenDiff col ecol
      let changedField := dLabel.isSome || dMaxLen.isSome || dChoice.isSome
      let changedChoices := choiceMapChanged col ecol
      let changedDataPolicy := dataPolicyChanged col ecol
      let detail := dLabel.toList ++ dMaxLen.toList ++ dChoice.toList
        ++ (if changedChoices then ["choice list"] else [])
        ++ (if changedDataPolicy then
            ["data policy \"" ++ optS ecol.data_policy ++ "\" => \""
              ++ optS col.data_policy ++ "\""] else [])
      if changedField || changedChoices || changedDataPolicy then
        match immutableErr col ecol with
        | some act => pure (some act)
        | none =>
          if changedField ∧ ¬ tableName = ecol.table then
            pure (some ⟨col.name, .error,
              "Update column \"" ++ col.name ++ "\" ("
                ++ String.intercalate "," detail
                ++ ") from not allowed, column exists on parent table ("
                ++ ecol.table ++ ")"⟩)
          else if changedField ∧ ¬ startsWithU col.name then
            pure (some ⟨col.name, .error,
              "Update column \"" ++ col.name ++ "\" ("
                ++ String.intercalate "," detail
                ++ ") from not allowed, column is out-of-the-box"⟩)
          else
            pure (some ⟨col.name, .update,
              "Update column \"" ++ col.name ++ "\" ("
                ++ String.intercalate "," detail ++ ")"⟩)
      else
        pure none

/-- The delete pass of `CColumn.sync` (lines 500-525): an existing column is
planned for deletion when it starts with `u_`, is not among the desired
column names, is defined on this table, and was created by the
authenticated user. -/
def deletePass (username tableName : String) (index : List String)
    (pending : List (String × Action)) (existing : List (String × ECol)) :
    List (String × Action) :=
  existing.foldl
    (fun acc kv =>
      if ¬ startsWithU kv.1 then acc
      else if kv.1 ∈ index then acc
      else if ¬ kv.2.table = tableName then acc
      else if ¬ kv.2.sys_created_by = some username then acc
      else setEntry acc kv.1 ⟨kv.1, .delete, "Delete column \"" ++ kv.1 ++ "\""⟩)
    pending

/-- One fold step of `CColumn.sync`'s desired-column loop: file the action
under the column's map key. -/
def syncStep (tableName : String) (existing : List (String × ECol))
    (acc : List (String × Action)) (kv : String × Col) :
    Except String (List (String × Action)) :=
  match syncOne tableName existing kv.2 with
  | .error e => .error e
  | .ok (some act) => .ok (setEntry acc kv.1 act)
  | .ok none => .ok acc

/-- `CColumn.sync` (lines 366-527): plan all desired columns, then the
delete pass; returns the pending map keyed by the desired column ids (and
by column name for deletions). -/
def sync (username tableName : String) (existing : List (String × ECol))
    (news : List (String × Col)) : Except String (List (String × Action)) :=
  match news.foldlM (syncStep tableName existing) [] with
  | .error e => .error e
  | .ok pending =>
    .ok (deletePass username tableName (news.map (fun kv => kv.2.name)) pending existing)

end CColumn

namespace CTable

/-- The create-table pending action (part_006 lines 966-971). -/
structure TableAction where
  name : String
  description : String
deriving Repr, DecidableEq

/-- The pending plan of `CTable.sync`: a table action (table absent) or a
column map (table present) — the planner never produces both. -/
structure Pending where
  table : Option TableAction := none
  columns : Option (List (String × CColumn.Action)) := none
deriving Repr, DecidableEq

/-- The existing flattened descriptor, as far as the planner reads it. -/
structure ExTable where
  parent : Option String := none
  columns : List (String × CColumn.ECol) := []
deriving Repr, DecidableEq

/-- The planning phase of `CTable.sync` (part_006 lines 942-1008): if the
table is absent, plan its creation (and no columns); otherwise enforce the
parent rule (throwing on mismatch) and delegate to `CColumn.sync`. -/
def syncPlan (username tableName : String) (desiredParent : Option String)
    (desiredCols : List (String × CColumn.Col)) (existing : Option ExTable) :
    Except String Pending :=
  match existing with
  | none =>
    .ok { table := some ⟨tableName, "Create table \"" ++ tableName ++ "\""⟩,
          columns := none }
  | some ex =>
    if (match desiredParent with
        | some p => !(p == "") && !(some p == ex.parent)
        | none => false) then
      .error ("Parent table mismatch. Table \"" ++ tableName
        ++ "\" should have parent \"" ++ CColumn.optS desiredParent
        ++ "\" but found \"" ++ CColumn.optS ex.parent ++ "\"")
    else do
      let cols ← CColumn.sync username tableName ex.columns desiredCols
      .ok { table := none, columns := some cols }

/-- A committed pending action, as observable on the wire. -/
inductive CommitEv
  | tableCommit (name : String)
  | columnCommit (name : String) (kind : CColumn.ActionKind)
deriving Repr, DecidableEq

/-- The `error`-kind column actions of a pending column map (line 1022). -/
def columnErrors (cols : List (String × CColumn.Action)) :
    List (String × CColumn.Action) :=
  cols.filter (fun kv => kv.2.kind == CColumn.ActionKind.error)

/-- The thrown message of line 1024: the error count and all error
descriptions, collectively. -/
def commitErrMsg (errs : List (String × CColumn.Action)) : String :=
  "Cannot commit changes, encountered " ++ toString errs.length ++ " errors: "
    ++ String.intercalate "," (errs.map (fun kv => kv.2.description))

/-- `CTable.commitAll` (part_006 lines 1014-1033): commit the table action
if present, then — if a column map is present — throw when it contains any
`error` action, else commit every column action in order.  Returns the
commit trace and the outcome. -/
def commitAll (p : Pending) : List CommitEv × Except String Unit :=
  let t : List CommitEv :=
    match p.table with
    | some ta => [.tableCommit ta.name]
    | none => []
  match p.columns with
  | none => (t, .ok ())
  | some cols =>
    if columnErrors cols ≠ [] then
      (t, .error (commitErrMsg (columnErrors cols)))
    else
      (t ++ cols.map (fun kv => .columnCommit kv.2.name kv.2.kind), .ok ())

end CTable

/-! ## Lemmas for the column/table reconciliation claims -/

namespace CColumn

theorem lookup_setEntry_self (l : List (String × Action)) (k : String) (a : Action) :
    (setEntry l k a).lookup k = some a := by
  induction l with
  | nil => simp [setEntry, List.lookup]
  | cons p rest ih =>
    by_cases h : p.1 = k
    · simp [setEntry, h, List.lookup]
    · simp only [setEntry]
      rw [if_neg h]
      simpa [List.lookup, show (k == p.1) = false by simpa using fun e => h e.symm] using ih

theorem lookup_setEntry_ne (l : List (String × Action)) (k k' : String) (a : Action)
    (h : ¬ k' = k) : (setEntry l k a).lookup k' = l.lookup k' := by
  induction l with
  | nil => simp [setEntry, List.lookup, show (k' == k) = false by simpa using h]
  | cons p rest ih =>
    by_cases hp : p.1 = k
    · subst hp
      simp [setEntry, List.lookup, show (k' == p.1) = false by simpa using h]
    · simp only [setEntry]
      rw [if_neg hp]
      by_cases hk : k' = p.1
      · simp [List.lookup, hk]
      · simp only [List.lookup, show (k' == p.1) = false by simpa using hk]
        exact ih

theorem mem_of_lookup_eq_some {β : Type} (l : List (String × β)) (k : String) (b : β)
    (h : l.lookup k = some b) : (k, b) ∈ l := by
  induction l with
  | nil => simp [List.lookup] at h
  | cons p rest ih =>
    by_cases hk : k = p.1
    · subst hk
      simp only [List.lookup, beq_self_eq_true] at h
      cases h
      exact List.mem_cons_self _ _
    · simp only [List.lookup, show (k == p.1) = false by simpa using hk] at h
      exact List.mem_cons_of_mem _ (ih h)

/-- Whether any mutable field (label, max length, choice, choice map, data
policy) differs — the condition under which the lines 449-451 `changed`
check lets the loop proceed to the immutable check at all. -/
def mutableChanged (col : Col) (ecol : ECol) : Except String Bool :=
  match choiceDiff col ecol with
  | .error e => .error e
  | .ok dChoice =>
    .ok ((labelDiff col ecol).isSome || (maxLenDiff col ecol).isSome
      || dChoice.isSome || choiceMapChanged col ecol || dataPolicyChanged col ecol)

/-- `immutableErr` only produces `error`-kind actions. -/
theorem immutableErr_kind (col : Col) (ecol : ECol) (act : Action)
    (h : immutableErr col ecol = some act) : act.kind = ActionKind.error := by
  simp only [immutableErr] at h
  split at h
  · cases h; rfl
  · split at h
    · cases h; rfl
    · exact Option.noConfusion h

/-- When the desired `id` equals the `name`, the rename check never fires. -/
theorem renameClash_of_id_eq_name (existing : List (String × ECol)) (col : Col)
    (hid : col.id = some col.name) : renameClash existing col = false := by
  simp [renameClash, hid]

/-- A desired column whose mutable fields changed and whose `type` or
`reference_table` differs produces exactly the immutable-field error
action. -/
theorem syncOne_immutable_error (tableName : String)
    (existing : List (String × ECol)) (col : Col) (ecol : ECol) (act : Action)
    (hid : col.id = some col.name)
    (hecol : existing.lookup col.name = some ecol)
    (hch : mutableChanged col ecol = .ok true)
    (hact : immutableErr col ecol = some act) :
    syncOne tableName existing col = .ok (some act) := by
  have hrc := renameClash_of_id_eq_name existing col hid
  cases hcd : choiceDiff col ecol with
  | error e =>
    rw [mutableChanged, hcd] at hch
    exact Except.noConfusion hch
  | ok d =>
    rw [mutableChanged, hcd] at hch
    simp only [Except.ok.injEq] at hch
    simp only [syncOne, hrc, Bool.false_eq_true, if_false, hecol]
    rw [hcd]
    simp only [hch, if_pos, hact]
    rfl

end CColumn

namespace CColumn

/-- Keys not among the desired map keys are untouched by the desired-column
loop. -/
theorem syncFold_lookup_of_not_mem (tableName : String)
    (existing : List (String × ECol)) (news : List (String × Col))
    (acc res : List (String × Action)) (k : String)
    (hk : k ∉ news.map Prod.fst)
    (h : news.foldlM (syncStep tableName existing) acc = .ok res) :
    res.lookup k = acc.lookup k := by
  induction news generalizing acc with
  | nil =>
    simp only [List.foldlM_nil] at h
    cases h
    rfl
  | cons kv rest ih =>
    rw [List.foldlM_cons] at h
    cases hs : syncStep tableName existing acc kv with
    | error e =>
      rw [hs] at h
      exact Except.noConfusion h
    | ok acc1 =>
      rw [hs] at h
      replace h : rest.foldlM (syncStep tableName existing) acc1 = .ok res := h
      simp only [List.map_cons, List.mem_cons, not_or] at hk
      rw [ih acc1 hk.2 h]
      simp only [syncStep] at hs
      cases hso : syncOne tableName existing kv.2 with
      | error e =>
        rw [hso] at hs
        exact Except.noConfusion hs
      | ok o =>
        rw [hso] at hs
        cases o with
        | some act =>
          simp only [Except.ok.injEq] at hs
          subst hs
          exact lookup_setEntry_ne acc kv.1 k act hk.1
        | none =>
          simp only [Except.ok.injEq] at hs
          subst hs
          rfl

/-- If the desired map keys are unique and the loop body plans action `act`
for the desired column `(dmId, col)`, the loop's result maps `dmId` to
`act`. -/
theorem syncFold_lookup_found (tableName : String)
    (existing : List (String × ECol)) (news : List (String × Col))
    (acc res : List (String × Action)) (dmId : String) (col : Col) (act : Action)
    (hnd : (news.map Prod.fst).Nodup)
    (hmem : (dmId, col) ∈ news)
    (hone : syncOne tableName existing col = .ok (some act))
    (h : news.foldlM (syncStep tableName existing) acc = .ok res) :
    res.lookup dmId = some act := by
  induction news generalizing acc with
  | nil => simp at hmem
  | cons kv rest ih =>
    rw [List.foldlM_cons] at h
    cases hs : syncStep tableName existing acc kv with
    | error e =>
      rw [hs] at h
      exact Except.noConfusion h
    | ok acc1 =>
      rw [hs] at h
      replace h : rest.foldlM (syncStep tableName existing) acc1 = .ok res := h
      simp only [List.map_cons, List.nodup_cons] at hnd
      by_cases hkd : kv.1 = dmId
      · have hcol : kv = (dmId, col) := by
          rcases List.mem_cons.1 hmem with h1 | h1
          · exact h1.symm
          · exfalso
            apply hnd.1
            rw [hkd]
            exact List.mem_map_of_mem Prod.fst h1
        have hkne : dmId ∉ rest.map Prod.fst := by
          rw [← hkd]
          exact hnd.1
        rw [syncFold_lookup_of_not_mem tableName existing rest acc1 res dmId hkne h]
        simp only [syncStep, hcol, hone, Except.ok.injEq] at hs
        subst hs
        exact lookup_setEntry_self acc dmId act
      · have hmem' : (dmId, col) ∈ rest := by
          rcases List.mem_cons.1 hmem with h1 | h1
          · exact absurd (congrArg Prod.fst h1.symm) hkd
          · exact h1
        exact ih acc1 hnd.2 hmem' h

/-- The delete pass never rebinds a key that is among the desired column
names. -/
theorem deletePass_lookup_of_mem_index (username tableName : String)
    (index : List String) (pending : List (String × Action))
    (existing : List (String × ECol)) (k : String) (hk : k ∈ index) :
    (deletePass username tableName index pending existing).lookup k
      = pending.lookup k := by
  induction existing generalizing pending with
  | nil => rfl
  | cons kv rest ih =>
    have hstep : deletePass username tableName index pending (kv :: rest)
        = deletePass username tableName index
            (if ¬ startsWithU kv.1 then pending
             else if kv.1 ∈ index then pending
             else if ¬ kv.2.table = tableName then pending
             else if ¬ kv.2.sys_created_by = some username then pending
             else setEntry pending kv.1
               ⟨kv.1, .delete, "Delete column \"" ++ kv.1 ++ "\""⟩)
            rest := rfl
    rw [hstep, ih]
    by_cases h1 : ¬ startsWithU kv.1
    · rw [if_pos h1]
    · rw [if_neg h1]
      by_cases h2 : kv.1 ∈ index
      · rw [if_pos h2]
      · rw [if_neg h2]
        by_cases h3 : ¬ kv.2.table = tableName
        · rw [if_pos h3]
        · rw [if_neg h3]
          by_cases h4 : ¬ kv.2.sys_created_by = some username
          · rw [if_pos h4]
          · rw [if_neg h4]
            exact lookup_setEntry_ne pending kv.1 k _ (fun he => h2 (he ▸ hk))

end CColumn

/-! ## Claims C3 and C8 -/

namespace CColumn

/-- Existing column `u_count` of type `string` whose mutable fields all
match the desired column. -/
def c3ECol : ECol :=
  { sys_id := "s1", label := some "Count", max_length := some 40,
    type := some "string", table := "u_t" }

/-- Desired column `u_count` of type `integer`, otherwise identical to the
existing one. -/
def c3Col : Col :=
  { id := some "u_count", name := "u_count", label := some "Count",
    max_length := some 40, type := some "integer" }

/-- **C3, counterexample.** The desired column's type (`integer`) differs
from the existing one's (`string`), yet planning produces an *empty*
pending map — no error action is emitted at all: the immutable-field check
of `CColumn.sync` (fake-api.js lines 453-468) only runs after the
`changed` check (lines 449-451), which `continue`s when no mutable field
differs. -/
theorem c3_counterexample :
    c3Col.type ≠ c3ECol.type
    ∧ sync "me" "u_t" [("u_count", c3ECol)] [("u_count", c3Col)] = .ok [] :=
  ⟨by decide, by rfl⟩

/-- **C3, amended.** For every successful column-reconciliation planning
run and every desired column `(dmId, col)` (with `dmId = col.name` and
`id = name`, ruling out the independent rename and delete-pass cases) whose
existing counterpart `ecol` differs in `type` or `reference_table` *and in
at least one mutable field* (label, max length, choice, choice map, data
policy — the amendment forced by `c3_counterexample`): the plan maps the
column to an error-kind action whose description names both values (built
by `immutableErr`), so no update action exists for it, and committing a
plan holding these column actions fails, with an empty commit trace — no
HTTP write is issued. -/
theorem c3_immutable_field_blocks_update (username tableName : String)
    (existing : List (String × ECol)) (news : List (String × Col))
    (pending : List (String × Action)) (dmId : String) (col : Col) (ecol : ECol)
    (act : Action)
    (h : sync username tableName existing news = .ok pending)
    (hnd : (news.map Prod.fst).Nodup)
    (hmem : (dmId, col) ∈ news)
    (hdm : dmId = col.name)
    (hid : col.id = some col.name)
    (hecol : existing.lookup col.name = some ecol)
    (hch : mutableChanged col ecol = .ok true)
    (hact : immutableErr col ecol = some act) :
    pending.lookup dmId = some act
    ∧ act.kind = ActionKind.error
    ∧ CTable.commitAll ⟨none, some pending⟩
        = ([], .error (CTable.commitErrMsg (CTable.columnErrors pending))) := by
  unfold sync at h
  cases hf : news.foldlM (syncStep tableName existing) [] with
  | error e =>
    rw [hf] at h
    exact Except.noConfusion h
  | ok pending0 =>
    rw [hf] at h
    simp only [Except.ok.injEq] at h
    subst h
    have hone := syncOne_immutable_error tableName existing col ecol act hid hecol hch hact
    have hlook0 := syncFold_lookup_found tableName existing news [] pending0 dmId col act
      hnd hmem hone hf
    have hidx : dmId ∈ news.map (fun kv => kv.2.name) := by
      rw [hdm]
      exact List.mem_map_of_mem _ hmem
    have hlook := deletePass_lookup_of_mem_index username tableName
      (news.map (fun kv => kv.2.name)) pending0 existing dmId hidx
    have hfinal : (deletePass username tableName (news.map (fun kv => kv.2.name))
        pending0 existing).lookup dmId = some act := by
      rw [hlook, hlook0]
    have hkind := immutableErr_kind col ecol act hact
    have hmemp := mem_of_lookup_eq_some _ _ _ hfinal
    have herr : CTable.columnErrors (deletePass username tableName
        (news.map (fun kv => kv.2.name)) pending0 existing) ≠ [] := by
      intro hnil
      have hin : (dmId, act) ∈ CTable.columnErrors (deletePass username tableName
          (news.map (fun kv => kv.2.name)) pending0 existing) :=
        List.mem_filter.2 ⟨hmemp, by simp [hkind]⟩
      rw [hnil] at hin
      simp at hin
    refine ⟨hfinal, hkind, ?_⟩
    simp only [CTable.commitAll]
    rw [if_pos herr]

/-- Existing column for the C3 witness: like `c3ECol` but with max length
255, so that a mutable field differs. -/
def c3WECol : ECol :=
  { sys_id := "s1", label := some "Count", max_length := some 255,
    type := some "string", table := "u_t" }

/-- The error action planned for the witness column. -/
def c3WAct : Action :=
  ⟨"u_count", .error,
    "Column \"u_count\" type differs (string => integer), however it cannot be updated"⟩

/-- Witness for `c3_immutable_field_blocks_update`: desired `u_count` is an
`integer` with max length 40, existing is a `string` with max length 255;
planning yields exactly the immutable-field error and committing fails with
nothing committed. -/
theorem c3_immutable_field_blocks_update_witness :
    sync "me" "u_t" [("u_count", c3WECol)] [("u_count", c3Col)]
        = .ok [("u_count", c3WAct)]
    ∧ ([("u_count", c3WAct)].lookup "u_count" = some c3WAct
      ∧ c3WAct.kind = ActionKind.error
      ∧ CTable.commitAll ⟨none, some [("u_count", c3WAct)]⟩
          = ([], .error (CTable.commitErrMsg
              (CTable.columnErrors [("u_count", c3WAct)])))) :=
  ⟨by rfl,
    c3_immutable_field_blocks_update "me" "u_t" [("u_count", c3WECol)]
      [("u_count", c3Col)] [("u_count", c3WAct)] "u_count" c3Col c3WECol c3WAct
      (by rfl) (by decide) (by decide) rfl (by rfl) (by rfl) (by rfl) (by rfl)⟩

end CColumn

namespace CTable

/-- **C8.** For every pending plan produced by the table-sync planner that
contains at least one error-kind column action, committing the plan fails
with a message reporting the errors collectively, and no pending action —
including the table-creation action — is committed before that failure:
the planner emits the table action only when the table is absent, in which
case it emits no column map at all, so any planned column map (and hence
any error action) comes with `table = none`, and `commitAll` then throws
with an empty commit trace. -/
theorem c8_commit_refused_with_errors (username tableName : String)
    (desiredParent : Option String) (desiredCols : List (String × CColumn.Col))
    (existing : Option ExTable) (p : Pending)
    (cols : List (String × CColumn.Action))
    (h : syncPlan username tableName desiredParent desiredCols existing = .ok p)
    (hc : p.columns = some cols)
    (he : columnErrors cols ≠ []) :
    commitAll p = ([], .error (commitErrMsg (columnErrors cols))) := by
  cases existing with
  | none =>
    simp only [syncPlan, Except.ok.injEq] at h
    subst h
    exact Option.noConfusion hc
  | some ex =>
    simp only [syncPlan] at h
    split at h
    · exact Except.noConfusion h
    · cases hs : CColumn.sync username tableName ex.columns desiredCols with
      | error e =>
        rw [hs] at h
        exact Except.noConfusion h
      | ok cols' =>
        rw [hs] at h
        replace h : Except.ok (⟨none, some cols'⟩ : Pending) = .ok p := h
        simp only [Except.ok.injEq] at h
        subst h
        simp only [Option.some.injEq] at hc
        subst hc
        simp only [commitAll]
        rw [if_pos he]

/-- Desired column for the C8 witness: its name lacks the `u_` prefix, so
planning emits a create-not-allowed error action. -/
def c8Col : CColumn.Col := { name := "bad", type := some "string" }

/-- The error action planned for `c8Col` on an empty existing table. -/
def c8Act : CColumn.Action :=
  ⟨"bad", .error, "Create column \"bad\" not allowed, does not start with \"u_\""⟩

/-- Witness for `c8_commit_refused_with_errors`: a plan with one error-kind
column action is refused with an empty commit trace. -/
theorem c8_commit_refused_with_errors_witness :
    syncPlan "me" "u_t" none [("bad", c8Col)] (some {})
        = .ok ⟨none, some [("bad", c8Act)]⟩
    ∧ commitAll ⟨none, some [("bad", c8Act)]⟩
        = ([], .error (commitErrMsg (columnErrors [("bad", c8Act)]))) :=
  ⟨by rfl,
    c8_commit_refused_with_errors "me" "u_t" none [("bad", c8Col)] (some {})
      ⟨none, some [("bad", c8Act)]⟩ [("bad", c8Act)] (by rfl) rfl (by decide)⟩

end CTable
